import Mathlib

/-!
Verification of the SystemVerilog type/value representation layer of
`src/types.rs`: the integral bit-vector storage encoding (two-state and
four-state), the layout quantities, the accessor error behaviour, and the
shape of the type catalog (tagged union of type descriptors).

The Rust source contains only the data declarations and their documented
storage contract; the operations (`pack`/`unpack`, `layout`, `read_bit`,
`write_bit`, `classify`) are specified but not implemented there.  Such
operations are modelled from the spec below, each marked in its doc
comment, and kept faithful to the worked examples in the comments of
`SvTypeIntegral.value`.

Machine words (`usize` in the source) are modelled as `Nat` together with
an explicit word width `w`; every stored word built by the encoder is
proved `< 2 ^ w`.
-/

/-- Logical state of one bit of an integral value: 0, 1, X (unknown) or
Z (high impedance).  Two-state values are restricted to `zero` and `one`. -/
inductive SvBit where
  | zero
  | one
  | x
  | z
  deriving DecidableEq

/-- Value-plane bit of a logical bit: set for 1 and Z, clear for 0 and X
(the least-significant word of a four-state pair, per the source comment
"0/1 on the least-significant usize"). -/
def SvBit.bitVal : SvBit → Bool
  | .one => true
  | .z => true
  | _ => false

/-- Control-plane bit of a logical bit: set exactly when the bit is
unknown or high-impedance (X or Z). -/
def SvBit.bitCtl : SvBit → Bool
  | .x => true
  | .z => true
  | _ => false

/-- Decode a (value bit, control bit) pair by the four-state pairing
table: (0,0) to 0, (1,0) to 1, (0,1) to X, (1,1) to Z. -/
def decodePair : Bool → Bool → SvBit
  | false, false => .zero
  | true, false => .one
  | false, true => .x
  | true, true => .z

/-- Two-state decoding of a single value-plane bit. -/
def svBitOfBool (b : Bool) : SvBit := if b then .one else .zero

/-- A bit is two-state when it is 0 or 1. -/
def SvBit.isTwoState : SvBit → Bool
  | .zero => true
  | .one => true
  | _ => false

/-- Interpret a list of bits, least-significant first, as a natural
number. -/
def bitsToNat : List Bool → Nat
  | [] => 0
  | b :: bs => (if b then 1 else 0) + 2 * bitsToNat bs

/-- The `k` least-significant bits of a natural number, least-significant
first. -/
def natToBits : Nat → Nat → List Bool
  | 0, _ => []
  | k + 1, n => (n % 2 == 1) :: natToBits k (n / 2)

/-- Number of storage words needed for `len` bits at word width `w`
(ceiling division). -/
def numWords (w len : Nat) : Nat := (len + w - 1) / w

/-- Modelled from the spec: the two-state word encoder of the Bit-Vector
Layout Engine (`pack` is specified in the spec but absent from `src`).
Packs a flat bit list, LSB first, into `n` machine words of width `w`,
least-significant word first, value plane only (source contract: "The LSB
in `data` holds the object's LSB", no control words for two-state). -/
def packNTwo (w : Nat) : Nat → List SvBit → List Nat
  | 0, _ => []
  | n + 1, bits =>
    bitsToNat ((bits.take w).map SvBit.bitVal) :: packNTwo w n (bits.drop w)

/-- Modelled from the spec: the four-state word encoder of the Bit-Vector
Layout Engine.  Every value word is immediately followed by its control
word of the same width (source contract: "pairs of adjacent usize with 0/1
on the least-significant usize corresponding to X/Z on the
most-significant usize"). -/
def packNFour (w : Nat) : Nat → List SvBit → List Nat
  | 0, _ => []
  | n + 1, bits =>
    bitsToNat ((bits.take w).map SvBit.bitVal)
      :: bitsToNat ((bits.take w).map SvBit.bitCtl)
      :: packNFour w n (bits.drop w)

/-- Modelled from the spec: the two-state word decoder (`unpack`),
recovering `width` logical bits from a word list, one word per `w` bits. -/
def unpackTwo (w : Nat) : Nat → List Nat → List SvBit
  | _, [] => []
  | width, v :: rest =>
    (natToBits (min w width) v).map svBitOfBool
      ++ unpackTwo w (width - min w width) rest

/-- Modelled from the spec: the four-state word decoder (`unpack`),
consuming a (value word, control word) pair per `w` bits and decoding each
bit position by the four-state pairing table. -/
def unpackFour (w : Nat) : Nat → List Nat → List SvBit
  | _, [] => []
  | _, [_] => []
  | width, v :: c :: rest =>
    List.zipWith decodePair (natToBits (min w width) v) (natToBits (min w width) c)
      ++ unpackFour w (width - min w width) rest

/-- Modelled from the spec: storage for one packed dimension (the storage
unit of the layout contract): `numWords w len` words for two-state, twice
that in (value, control) pairs for four-state. -/
def packDim (fs : Bool) (w : Nat) (bits : List SvBit) : List Nat :=
  if fs then packNFour w (numWords w bits.length) bits
  else packNTwo w (numWords w bits.length) bits

/-- Modelled from the spec: decoder for one packed dimension of logical
width `width`. -/
def unpackDim (fs : Bool) (w width : Nat) (ws : List Nat) : List SvBit :=
  if fs then unpackFour w width ws else unpackTwo w width ws

/-- Text range where an object is declared, for error reporting
(`SourceTextOrigin` in the source; `Box<Path>` modelled as `String`). -/
structure SourceTextOrigin where
  path : String
  begin_line : Nat
  begin_column : Nat
  end_line : Nat
  end_column : Nat
  deriving DecidableEq

/-- An integral (`6.11`) type descriptor, field for field after the source:
flags for four-state, sizedness and signedness, optional packed and
unpacked dimension lists (`None` denotes the single-bit scalar, distinct
from `Some []`), and optional word storage (`None` denotes an object with
a type but no value). -/
structure SvTypeIntegral where
  origin : Option SourceTextOrigin
  identifier : Option String
  fourstate : Bool
  sized : Bool
  signed : Bool
  packed : Option (List (Nat × Nat))
  unpacked : Option (List (Nat × Nat))
  value : Option (List Nat)
  deriving DecidableEq

/-- Bit pattern of a C `double` (Rust `f64`).  No claim computes with
floating-point values, so the payload is kept as its 64-bit pattern. -/
structure F64Bits where
  bits : Nat
  deriving DecidableEq

/-- Bit pattern of a C `float` (Rust `f32`). -/
structure F32Bits where
  bits : Nat
  deriving DecidableEq

/-- The `real`, `realtime` and `shortreal` flavours (`SvRealType`), each
holding an optional value. -/
inductive SvRealType where
  | Real : Option F64Bits → SvRealType
  | Realtime : Option F64Bits → SvRealType
  | Shortreal : Option F32Bits → SvRealType
  deriving DecidableEq

/-- Real-valued type descriptor (`6.12`). -/
structure SvTypeReal where
  origin : Option SourceTextOrigin
  identifier : Option String
  value : Option SvRealType
  deriving DecidableEq

/-- Void type descriptor (`6.13`): carries only an origin in the source —
no identifier and no value slot. -/
structure SvTypeVoid where
  origin : Option SourceTextOrigin
  deriving DecidableEq

/-- Chandle type descriptor (`6.14`): a mandatory platform-word value
(`value: usize` in the source) and no identifier field. -/
structure SvTypeChandle where
  origin : Option SourceTextOrigin
  value : Nat
  deriving DecidableEq

/-- Class handle descriptor (`6.15`): the handle is a bare `u8`
placeholder in the source. -/
structure SvTypeClass where
  origin : Option SourceTextOrigin
  identifier : Option String
  handle : Nat
  deriving DecidableEq

/-- String type descriptor (`6.16`): optional character-sequence value,
no identifier field in the source. -/
structure SvTypeString where
  origin : Option SourceTextOrigin
  value : Option String
  deriving DecidableEq

/-- Synchronisation object of an event (`6.17`): a FIFO queue of opaque
process references (`Vec<u8>` in the source). -/
structure SvSynchronisationObject where
  queue : List Nat
  deriving DecidableEq

/-- Event type descriptor (`6.17`): a mandatory owned synchronisation
object. -/
structure SvTypeEvent where
  origin : Option SourceTextOrigin
  identifier : Option String
  sync_object : SvSynchronisationObject
  deriving DecidableEq

mutual

/-- The type catalog (`SvType`), a closed tagged union.  Note the source
declares the `Enum` variant with a `Box<SvTypeTypedef>` payload — the same
payload type as `Typedef` — not `Box<SvTypeEnum>`. -/
inductive SvType where
  | Integral : SvTypeIntegral → SvType
  | Real : SvTypeReal → SvType
  | Void : SvTypeVoid → SvType
  | Chandle : SvTypeChandle → SvType
  | Class : SvTypeClass → SvType
  | String : SvTypeString → SvType
  | Event : SvTypeEvent → SvType
  | Typedef : SvTypeTypedef → SvType
  | Enum : SvTypeTypedef → SvType

/-- Typedef descriptor (`6.18`): optional origin, optional identifier, and
a boxed base type. -/
inductive SvTypeTypedef where
  | mk : Option SourceTextOrigin → Option String → SvType → SvTypeTypedef

end

def SvTypeTypedef.origin : SvTypeTypedef → Option SourceTextOrigin
  | .mk o _ _ => o

def SvTypeTypedef.identifier : SvTypeTypedef → Option String
  | .mk _ i _ => i

def SvTypeTypedef.base_type : SvTypeTypedef → SvType
  | .mk _ _ b => b

/-- One named constant of an enumeration (`SvEnumMember`). -/
structure SvEnumMember where
  origin : Option SourceTextOrigin
  identifier : String
  value : SvTypeIntegral
  deriving DecidableEq

/-- Enumeration descriptor (`6.19`, `SvTypeEnum`): an integral base type
and an ordered member list.  No `SvType` constructor carries this type. -/
structure SvTypeEnum where
  origin : Option SourceTextOrigin
  identifier : Option String
  base_type : SvTypeIntegral
  members : List SvEnumMember
  deriving DecidableEq

/-- The five compatibility levels of `6.22`, strictest first. -/
inductive SvTypesCompatibility where
  | Matching
  | Equivalent
  | AssignmentCompatible
  | CastCompatible
  | NonEquivalent
  deriving DecidableEq

/-- Error kinds of the spec (section 7); the source declares no error
type, so this is modelled from the spec verbatim. -/
inductive SvError where
  | MalformedDimension
  | UnsizedWidth
  | IndexOutOfRange
  | UninitializedValue
  | TwoStateOverflow
  | DuplicateEnumMember
  | UnsizedEnumBase
  | UnresolvedTypedef
  deriving DecidableEq

/-- Which tagged variant of the catalog an entry uses. -/
inductive SvTypeTag where
  | Integral
  | Real
  | Void
  | Chandle
  | Class
  | String
  | Event
  | Typedef
  | Enum
  deriving DecidableEq

def svTypeTag : SvType → SvTypeTag
  | .Integral _ => .Integral
  | .Real _ => .Real
  | .Void _ => .Void
  | .Chandle _ => .Chandle
  | .Class _ => .Class
  | .String _ => .String
  | .Event _ => .Event
  | .Typedef _ => .Typedef
  | .Enum _ => .Enum

/-- Width of one dimension pair: the absolute difference of upper and
lower bound plus one (bounds are `u64` in the source, hence `Nat`). -/
def dimWidth (d : Nat × Nat) : Nat := max d.1 d.2 - min d.1 d.2 + 1

/-- Product of the widths of a dimension list. -/
def prodWidths (l : List (Nat × Nat)) : Nat := (l.map dimWidth).prod

/-- Packed dimensions of an integral type; per the source comment,
`None` denotes the scalar `[(0,0)]`. -/
def packedDims (t : SvTypeIntegral) : List (Nat × Nat) := t.packed.getD [(0, 0)]

/-- Unpacked dimensions of an integral type; `None` denotes `[(0,0)]`. -/
def unpackedDims (t : SvTypeIntegral) : List (Nat × Nat) := t.unpacked.getD [(0, 0)]

/-- Logical bit width of the innermost (contiguous) packed dimension: the
storage chunk that occupies consecutive words. -/
def chunkWidth (t : SvTypeIntegral) : Nat := dimWidth ((packedDims t).getLastD (0, 0))

/-- Number of word-aligned packed chunks per unpacked element: the product
of the widths of all packed dimensions except the innermost. -/
def chunksPerElem (t : SvTypeIntegral) : Nat := prodWidths (packedDims t).dropLast

/-- Number of unpacked elements: product of the unpacked dimension widths. -/
def elemCount (t : SvTypeIntegral) : Nat := prodWidths (unpackedDims t)

/-- Total number of word-aligned chunks in the stored value, element 0
first. -/
def numChunks (t : SvTypeIntegral) : Nat := elemCount t * chunksPerElem t

/-- Storage words per chunk: `numWords w cw`, doubled for four-state. -/
def wordsPerChunk (fs : Bool) (w cw : Nat) : Nat :=
  (if fs then 2 else 1) * numWords w cw

/-- Storage words per unpacked element. -/
def wordsPerElem (w : Nat) (t : SvTypeIntegral) : Nat :=
  chunksPerElem t * wordsPerChunk t.fourstate w (chunkWidth t)

/-- Modelled from the spec: `$bits` — defined only for `sized = true`,
as the product of all packed dimension widths times the product of all
unpacked dimension widths (control words excluded); `UnsizedWidth` error
otherwise.  Absent from `src`; the source documents only that "If
`sized=True`, then `$bits` is calculated from dimensions". -/
def svBits (t : SvTypeIntegral) : Except SvError Nat :=
  if t.sized then .ok (prodWidths (packedDims t) * prodWidths (unpackedDims t))
  else .error .UnsizedWidth

/-- Storage shape reported by the layout engine: words per unpacked
element, words per packed dimension (outermost first), and total words. -/
structure LayoutShape where
  wordsPerElement : Nat
  wordsPerPackedDim : List Nat
  totalWords : Nat
  deriving DecidableEq

/-- Words occupied by each packed dimension, outermost first: the
innermost dimension occupies one chunk, each outer dimension multiplies
the words of the dimensions inside it. -/
def dimWordCounts (fs : Bool) (w : Nat) : List (Nat × Nat) → List Nat
  | [] => []
  | [d] => [wordsPerChunk fs w (dimWidth d)]
  | d :: rest =>
    let inner := dimWordCounts fs w rest
    dimWidth d * inner.headD 0 :: inner

/-- Modelled from the spec: `layout(fourstate, sized, packed, unpacked)`,
absent from `src`.  Rejects unsized types (`UnsizedWidth`) and any
dimension of non-positive computed width (`MalformedDimension`), then
reports the storage shape. -/
def layout (w : Nat) (fs sized : Bool) (packed unpacked : Option (List (Nat × Nat))) :
    Except SvError LayoutShape :=
  if sized = false then .error .UnsizedWidth
  else
    let pd := packed.getD [(0, 0)]
    let ud := unpacked.getD [(0, 0)]
    if (pd ++ ud).any (fun d => dimWidth d == 0) then .error .MalformedDimension
    else
      let perElem := prodWidths pd.dropLast * wordsPerChunk fs w (dimWidth (pd.getLastD (0, 0)))
      .ok { wordsPerElement := perElem
            wordsPerPackedDim := dimWordCounts fs w pd
            totalWords := perElem * prodWidths ud }

/-- Modelled from the spec: `pack(logical_bits) -> words`.  A logical
value is the list of its word-aligned chunks, unpacked element 0 first
(source contract: index-0 element value in word 0), each chunk the
LSB-first bit list of one innermost-packed-dimension instance. -/
def packValue (w : Nat) (t : SvTypeIntegral) (v : List (List SvBit)) : List Nat :=
  (v.map (packDim t.fourstate w)).flatten

/-- Decode `n` chunks of logical width `cw` from a word list. -/
def unpackChunks (fs : Bool) (w cw : Nat) : Nat → List Nat → List (List SvBit)
  | 0, _ => []
  | n + 1, ws =>
    unpackDim fs w cw (ws.take (wordsPerChunk fs w cw))
      :: unpackChunks fs w cw n (ws.drop (wordsPerChunk fs w cw))

/-- Modelled from the spec: `unpack(words) -> logical_bits` for a given
integral type. -/
def unpackValue (w : Nat) (t : SvTypeIntegral) (ws : List Nat) : List (List SvBit) :=
  unpackChunks t.fourstate w (chunkWidth t) (numChunks t) ws

/-- A logical value respects the layout invariants of its type: the right
number of chunks, every chunk of the innermost packed width, and only 0/1
bits when the type is two-state. -/
def validValue (t : SvTypeIntegral) (v : List (List SvBit)) : Bool :=
  v.length == numChunks t
    && v.all fun c => c.length == chunkWidth t && (t.fourstate || c.all SvBit.isTwoState)

/-- Write bit `pos` of word `n`, leaving every other bit of `n` alone. -/
def setBitNat (n pos : Nat) (b : Bool) : Nat :=
  n % 2 ^ pos + (if b then 1 else 0) * 2 ^ pos + 2 ^ (pos + 1) * (n / 2 ^ (pos + 1))

/-- Modelled from the spec: `read_bit(value, packed_index, unpacked_index)`,
absent from `src`.  Reading a `None` value is `UninitializedValue`; an
index outside the declared dimensions is `IndexOutOfRange`; otherwise the
addressed bit is decoded from the value plane (two-state) or the
(value word, control word) pair (four-state). -/
def readBit (w : Nat) (t : SvTypeIntegral) (pIdx uIdx : Nat) : Except SvError SvBit :=
  match t.value with
  | none => .error .UninitializedValue
  | some ws =>
    if uIdx < elemCount t ∧ pIdx < chunksPerElem t * chunkWidth t then
      let cw := chunkWidth t
      let base := uIdx * wordsPerElem w t + pIdx / cw * wordsPerChunk t.fourstate w cw
      let bit := pIdx % cw
      if t.fourstate then
        .ok (decodePair ((ws.getD (base + 2 * (bit / w)) 0).testBit (bit % w))
          ((ws.getD (base + 2 * (bit / w) + 1) 0).testBit (bit % w)))
      else
        .ok (if (ws.getD (base + bit / w) 0).testBit (bit % w) then .one else .zero)
    else .error .IndexOutOfRange

/-- Modelled from the spec: `write_bit`, absent from `src`.  Writing X or
Z into two-state storage is a `TwoStateOverflow` error (never a silent
coercion); the remaining checks mirror `readBit`.  On success the new word
list is returned. -/
def writeBit (w : Nat) (t : SvTypeIntegral) (pIdx uIdx : Nat) (b : SvBit) :
    Except SvError (List Nat) :=
  if t.fourstate = false ∧ (b = .x ∨ b = .z) then .error .TwoStateOverflow
  else
    match t.value with
    | none => .error .UninitializedValue
    | some ws =>
      if uIdx < elemCount t ∧ pIdx < chunksPerElem t * chunkWidth t then
        let cw := chunkWidth t
        let base := uIdx * wordsPerElem w t + pIdx / cw * wordsPerChunk t.fourstate w cw
        let bit := pIdx % cw
        if t.fourstate then
          let vi := base + 2 * (bit / w)
          .ok ((ws.set vi (setBitNat (ws.getD vi 0) (bit % w) b.bitVal)).set (vi + 1)
            (setBitNat (ws.getD (vi + 1) 0) (bit % w) b.bitCtl))
        else
          let vi := base + bit / w
          .ok (ws.set vi (setBitNat (ws.getD vi 0) (bit % w) b.bitVal))
      else .error .IndexOutOfRange

/-- The descriptor that results from a `write_bit` call: unchanged when
the call reports an error, updated storage otherwise. -/
def writeBitApplied (w : Nat) (t : SvTypeIntegral) (pIdx uIdx : Nat) (b : SvBit) :
    SvTypeIntegral :=
  match writeBit w t pIdx uIdx b with
  | .error _ => t
  | .ok ws => { t with value := some ws }

/-- Type-level structural agreement of two integral descriptors: equal
four-state, sized and signed flags and equal packed and unpacked dimension
lists (order included).  Identifier, origin and stored value are not
compared. -/
def integralStructEq (a b : SvTypeIntegral) : Bool :=
  a.fourstate == b.fourstate && a.sized == b.sized && a.signed == b.signed
    && a.packed == b.packed && a.unpacked == b.unpacked

/-- Modelled from the spec: `classify(a, b)`, absent from `src` (the
source declares only the `SvTypesCompatibility` levels).  Two integral
entries are `Matching` when structurally identical with the same
identifier, `Equivalent` when structurally identical with different
identifiers (the spec requires that two integral entries differing only by
identifier be `Equivalent`, not `Matching`), and `AssignmentCompatible`
otherwise; entries of different variants are never `Matching` or
`Equivalent`, and every non-integral pair is conservatively
`NonEquivalent` (the spec leaves those pairs open between
`CastCompatible` and `NonEquivalent`). -/
def classify (a b : SvType) : SvTypesCompatibility :=
  match a, b with
  | .Integral ia, .Integral ib =>
    if integralStructEq ia ib && ia.identifier == ib.identifier then .Matching
    else if integralStructEq ia ib then .Equivalent
    else .AssignmentCompatible
  | _, _ => .NonEquivalent

/-- The optional-identifier field of a catalog entry, when the variant's
descriptor has one: `SvTypeVoid`, `SvTypeChandle` and `SvTypeString`
declare no `identifier` field in the source. -/
def svTypeIdentifierSlot : SvType → Option (Option String)
  | .Integral i => some i.identifier
  | .Real r => some r.identifier
  | .Void _ => none
  | .Chandle _ => none
  | .Class c => some c.identifier
  | .String _ => none
  | .Event e => some e.identifier
  | .Typedef td => some td.identifier
  | .Enum td => some td.identifier

/-- The optional-origin field of a catalog entry; every variant's
descriptor declares one. -/
def svTypeOriginSlot : SvType → Option (Option SourceTextOrigin)
  | .Integral i => some i.origin
  | .Real r => some r.origin
  | .Void v => some v.origin
  | .Chandle c => some c.origin
  | .Class c => some c.origin
  | .String s => some s.origin
  | .Event e => some e.origin
  | .Typedef td => some td.origin
  | .Enum td => some td.origin

/-- Value payload of a scalar descriptor, for stating how each variant
stores its value. -/
inductive SvScalarValue where
  | realV : SvRealType → SvScalarValue
  | stringV : String → SvScalarValue
  | chandleV : Nat → SvScalarValue
  | classV : Nat → SvScalarValue
  | eventV : SvSynchronisationObject → SvScalarValue
  deriving DecidableEq

/-- Shape of a descriptor's value storage: no value field at all, a
mandatory (non-optional) field, or an optional slot. -/
inductive SvValueSlot where
  | noSlot
  | mandatorySlot : SvScalarValue → SvValueSlot
  | optionalSlot : Option SvScalarValue → SvValueSlot
  deriving DecidableEq

/-- Value-storage shape of the scalar descriptors, read off the source
field types: `SvTypeReal.value : Option<SvRealType>` and
`SvTypeString.value : Option<String>` are optional; `SvTypeVoid` has no
value field; `SvTypeChandle.value : usize`, `SvTypeClass.handle : u8` and
`SvTypeEvent.sync_object` are mandatory.  `none` for the non-scalar
variants. -/
def svScalarValueShape : SvType → Option SvValueSlot
  | .Real r => some (.optionalSlot (r.value.map .realV))
  | .Void _ => some .noSlot
  | .Chandle c => some (.mandatorySlot (.chandleV c.value))
  | .Class c => some (.mandatorySlot (.classV c.handle))
  | .String s => some (.optionalSlot (s.value.map .stringV))
  | .Event e => some (.mandatorySlot (.eventV e.sync_object))
  | _ => none

/-- The `Typedef`-typed payload of an `Enum`-tagged catalog entry. -/
def svTypeEnumEntry : SvType → Option SvTypeTypedef
  | .Enum td => some td
  | _ => none

/-- Example type from the source comments: twostate packed 1b unpacked x5. -/
def exTwo1bx5 : SvTypeIntegral :=
  { origin := none, identifier := none, fourstate := false, sized := true,
    signed := false, packed := some [(0, 0)], unpacked := some [(4, 0)], value := none }

/-- Example type from the source comments: fourstate packed 1b unpacked x5. -/
def exFour1bx5 : SvTypeIntegral :=
  { origin := none, identifier := none, fourstate := true, sized := true,
    signed := false, packed := some [(0, 0)], unpacked := some [(4, 0)], value := none }

/-- Example type: fourstate packed 1b unpacked x2. -/
def exFour1bx2 : SvTypeIntegral :=
  { origin := none, identifier := none, fourstate := true, sized := true,
    signed := true, packed := some [(0, 0)], unpacked := some [(1, 0)], value := none }

theorem bitsToNat_lt (bs : List Bool) : bitsToNat bs < 2 ^ bs.length := by
  induction bs with
  | nil => simp [bitsToNat]
  | cons b rest ih =>
    simp only [bitsToNat, List.length_cons, Nat.pow_succ]
    split <;> omega

theorem natToBits_bitsToNat (bs : List Bool) :
    natToBits bs.length (bitsToNat bs) = bs := by
  induction bs with
  | nil => rfl
  | cons b rest ih =>
    have hdiv : ((if b then 1 else 0) + 2 * bitsToNat rest) / 2 = bitsToNat rest := by
      split <;> omega
    have hmod : (((if b then 1 else 0) + 2 * bitsToNat rest) % 2 == 1) = b := by
      cases b <;> simp [Nat.add_mul_mod_self_left, Nat.mul_mod_right]
    simp only [List.length_cons, bitsToNat, natToBits, hdiv, hmod, ih]

theorem numWords_zero (w : Nat) : numWords w 0 = 0 := by
  unfold numWords
  cases w with
  | zero => rfl
  | succ k => simp [Nat.div_eq_of_lt]

theorem numWords_eq_zero {w len : Nat} (hw : 0 < w) (h : numWords w len = 0) :
    len = 0 := by
  unfold numWords at h
  by_contra hlen
  have h1 : w ≤ len + w - 1 := by omega
  have := (Nat.one_le_div_iff hw).mpr h1
  omega

theorem numWords_succ {w len : Nat} (hw : 0 < w) (hlen : 0 < len) :
    numWords w len = numWords w (len - w) + 1 := by
  unfold numWords
  rcases le_or_lt len w with hle | hgt
  · have h0 : len - w = 0 := by omega
    rw [h0]
    have : len + w - 1 = (len - 1) + w := by omega
    rw [this, Nat.add_div_right _ hw, Nat.div_eq_of_lt (by omega)]
    cases w with
    | zero => omega
    | succ k => simp [Nat.div_eq_of_lt]
  · have h1 : len + w - 1 = (len - 1) + w := by omega
    have h2 : len - w + w - 1 = (len - w - 1) + w := by omega
    rw [h1, h2, Nat.add_div_right _ hw, Nat.add_div_right _ hw]
    have h3 : len - 1 = (len - w - 1) + w := by omega
    rw [h3, Nat.add_div_right _ hw]

theorem packNTwo_length (w : Nat) :
    ∀ n bits, (packNTwo w n bits).length = n := by
  intro n
  induction n with
  | zero => intro bits; rfl
  | succ m ih => intro bits; simp [packNTwo, ih]

theorem packNFour_length (w : Nat) :
    ∀ n bits, (packNFour w n bits).length = 2 * n := by
  intro n
  induction n with
  | zero => intro bits; rfl
  | succ m ih => intro bits; simp [packNFour, ih]; omega

theorem decodePair_encode (b : SvBit) : decodePair b.bitVal b.bitCtl = b := by
  cases b <;> rfl

theorem svBitOfBool_bitVal {b : SvBit} (h : b.isTwoState = true) :
    svBitOfBool b.bitVal = b := by
  cases b <;> simp_all [svBitOfBool, SvBit.bitVal, SvBit.isTwoState]

theorem zipWith_decodePair (l : List SvBit) :
    List.zipWith decodePair (l.map SvBit.bitVal) (l.map SvBit.bitCtl) = l := by
  induction l with
  | nil => rfl
  | cons b rest ih => simp [ih, decodePair_encode]

theorem map_svBitOfBool_bitVal {l : List SvBit}
    (h : ∀ b ∈ l, b.isTwoState = true) :
    (l.map SvBit.bitVal).map svBitOfBool = l := by
  induction l with
  | nil => rfl
  | cons b rest ih =>
    simp only [List.map_cons, List.cons.injEq]
    constructor
    · exact svBitOfBool_bitVal (h b (List.mem_cons_self b rest))
    · exact ih fun b hb => h b (List.mem_cons_of_mem _ hb)

theorem unpackTwo_packNTwo (w : Nat) (hw : 0 < w) :
    ∀ n bits, numWords w bits.length = n →
      (∀ b ∈ bits, SvBit.isTwoState b = true) →
      unpackTwo w bits.length (packNTwo w n bits) = bits := by
  intro n
  induction n with
  | zero =>
    intro bits h _
    have h0 : bits.length = 0 := numWords_eq_zero hw h
    rw [List.length_eq_zero] at h0
    subst h0
    rfl
  | succ m ih =>
    intro bits h hts
    have hlen : 0 < bits.length := by
      by_contra hc
      have : bits.length = 0 := by omega
      rw [this, numWords_zero] at h
      omega
    have hmin : min w bits.length = (bits.take w).length := (List.length_take w bits).symm
    have htake : ((bits.take w).map SvBit.bitVal).length = min w bits.length := by
      simp [List.length_take]
    simp only [packNTwo, unpackTwo]
    rw [← htake, natToBits_bitsToNat,
        map_svBitOfBool_bitVal (fun b hb => hts b (List.mem_of_mem_take hb))]
    have hdroplen : (bits.drop w).length = bits.length - w := List.length_drop w bits
    have hrest : numWords w (bits.drop w).length = m := by
      rw [hdroplen]
      have := numWords_succ hw hlen
      omega
    have hwidth : bits.length - min w bits.length = (bits.drop w).length := by
      rw [hdroplen]; omega
    rw [htake, hwidth, ih (bits.drop w) hrest (fun b hb => hts b (List.mem_of_mem_drop hb))]
    exact List.take_append_drop w bits

theorem unpackFour_packNFour (w : Nat) (hw : 0 < w) :
    ∀ n bits, numWords w bits.length = n →
      unpackFour w bits.length (packNFour w n bits) = bits := by
  intro n
  induction n with
  | zero =>
    intro bits h
    have h0 : bits.length = 0 := numWords_eq_zero hw h
    rw [List.length_eq_zero] at h0
    subst h0
    rfl
  | succ m ih =>
    intro bits h
    have hlen : 0 < bits.length := by
      by_contra hc
      have : bits.length = 0 := by omega
      rw [this, numWords_zero] at h
      omega
    have htakeV : ((bits.take w).map SvBit.bitVal).length = min w bits.length := by
      simp [List.length_take]
    have htakeC : ((bits.take w).map SvBit.bitCtl).length = min w bits.length := by
      simp [List.length_take]
    simp only [packNFour, unpackFour]
    rw [← htakeV, natToBits_bitsToNat]
    have hC : natToBits (min w bits.length) (bitsToNat ((bits.take w).map SvBit.bitCtl))
        = (bits.take w).map SvBit.bitCtl := by
      rw [← htakeC, natToBits_bitsToNat]
    rw [htakeV, hC, zipWith_decodePair]
    have hdroplen : (bits.drop w).length = bits.length - w := List.length_drop w bits
    have hrest : numWords w (bits.drop w).length = m := by
      rw [hdroplen]
      have := numWords_succ hw hlen
      omega
    have hwidth : bits.length - min w bits.length = (bits.drop w).length := by
      rw [hdroplen]; omega
    rw [hwidth, ih (bits.drop w) hrest]
    exact List.take_append_drop w bits

theorem unpackDim_packDim (fs : Bool) (w : Nat) (hw : 0 < w) (bits : List SvBit)
    (hts : fs = false → ∀ b ∈ bits, SvBit.isTwoState b = true) :
    unpackDim fs w bits.length (packDim fs w bits) = bits := by
  cases fs with
  | false =>
    simp only [packDim, unpackDim, if_neg Bool.false_ne_true]
    exact unpackTwo_packNTwo w hw _ bits rfl (hts rfl)
  | true =>
    simp only [packDim, unpackDim, if_pos rfl]
    exact unpackFour_packNFour w hw _ bits rfl

theorem packDim_length (fs : Bool) (w : Nat) (bits : List SvBit) :
    (packDim fs w bits).length
      = (if fs then 2 else 1) * numWords w bits.length := by
  cases fs <;> simp [packDim, packNTwo_length, packNFour_length]

theorem unpackChunks_packed (fs : Bool) (w cw : Nat) (hw : 0 < w) :
    ∀ v : List (List SvBit),
      (∀ c ∈ v, c.length = cw ∧ (fs = false → ∀ b ∈ c, SvBit.isTwoState b = true)) →
      unpackChunks fs w cw v.length ((v.map (packDim fs w)).flatten) = v := by
  intro v
  induction v with
  | nil => intro _; rfl
  | cons c rest ih =>
    intro h
    obtain ⟨hc, hts⟩ := h c (List.mem_cons_self c rest)
    have hlen : (packDim fs w c).length = wordsPerChunk fs w cw := by
      rw [packDim_length, hc, wordsPerChunk]
    simp only [List.map_cons, List.flatten_cons, List.length_cons, unpackChunks]
    rw [← hlen, List.take_left, List.drop_left,
        ih fun d hd => h d (List.mem_cons_of_mem _ hd)]
    have := unpackDim_packDim fs w hw c hts
    rw [hc] at this
    rw [this]

theorem unpackValue_packValue (w : Nat) (t : SvTypeIntegral)
    (v : List (List SvBit)) (hw : 0 < w) (hv : validValue t v = true) :
    unpackValue w t (packValue w t v) = v := by
  simp only [validValue, Bool.and_eq_true, beq_iff_eq, List.all_eq_true] at hv
  obtain ⟨hn, hall⟩ := hv
  unfold unpackValue packValue
  rw [← hn]
  refine unpackChunks_packed t.fourstate w (chunkWidth t) hw v fun c hc => ?_
  have h := hall c hc
  simp only [Bool.and_eq_true, beq_iff_eq, Bool.or_eq_true, List.all_eq_true] at h
  exact ⟨h.1, fun hfs => h.2.resolve_left (by simp [hfs])⟩

theorem bitsToNat_testBit (bs : List Bool) :
    ∀ i, (bitsToNat bs).testBit i = bs.getD i false := by
  induction bs with
  | nil => intro i; simp [bitsToNat, Nat.zero_testBit]
  | cons b rest ih =>
    intro i
    cases i with
    | zero =>
      simp only [bitsToNat, List.getD_cons_zero]
      rw [Nat.testBit_zero]
      cases b <;> simp <;> omega
    | succ j =>
      have hdiv : ((if b then 1 else 0) + 2 * bitsToNat rest) / 2 = bitsToNat rest := by
        split <;> omega
      rw [List.getD_cons_succ, ← ih j]
      simp only [bitsToNat]
      rw [Nat.testBit_succ, hdiv]

theorem packNTwo_getElem (w : Nat) :
    ∀ n (bits : List SvBit) j, j < n →
      (packNTwo w n bits)[j]?
        = some (bitsToNat (((bits.drop (j * w)).take w).map SvBit.bitVal)) := by
  intro n
  induction n with
  | zero => intro bits j hj; omega
  | succ m ih =>
    intro bits j hj
    cases j with
    | zero => simp [packNTwo]
    | succ k =>
      have hd : (bits.drop w).drop (k * w) = bits.drop ((k + 1) * w) := by
        rw [List.drop_drop]
        congr 1
        ring
      simp only [packNTwo, List.getElem?_cons_succ]
      rw [ih (bits.drop w) k (by omega), hd]

theorem packNFour_getElem (w : Nat) :
    ∀ n (bits : List SvBit) j, j < n →
      (packNFour w n bits)[2 * j]?
          = some (bitsToNat (((bits.drop (j * w)).take w).map SvBit.bitVal))
        ∧ (packNFour w n bits)[2 * j + 1]?
          = some (bitsToNat (((bits.drop (j * w)).take w).map SvBit.bitCtl)) := by
  intro n
  induction n with
  | zero => intro bits j hj; omega
  | succ m ih =>
    intro bits j hj
    cases j with
    | zero => simp [packNFour]
    | succ k =>
      have hd : (bits.drop w).drop (k * w) = bits.drop ((k + 1) * w) := by
        rw [List.drop_drop]
        congr 1
        ring
      have h2 : 2 * (k + 1) = 2 * k + 1 + 1 := by ring
      have h3 : 2 * (k + 1) + 1 = 2 * k + 1 + 1 + 1 := by ring
      obtain ⟨ihv, ihc⟩ := ih (bits.drop w) k (by omega)
      constructor
      · rw [h2]
        simp only [packNFour, List.getElem?_cons_succ]
        rw [ihv, hd]
      · rw [h3]
        simp only [packNFour, List.getElem?_cons_succ]
        rw [ihc, hd]

theorem chunk_bit_eq (w : Nat) (hw : 0 < w) (f : SvBit → Bool) (bits : List SvBit)
    (i : Nat) (hi : i < bits.length) :
    (bitsToNat (((bits.drop (i / w * w)).take w).map f)).testBit (i % w)
      = f (bits.get ⟨i, hi⟩) := by
  rw [bitsToNat_testBit, List.getD_eq_getElem?_getD, List.getElem?_map]
  have hr : i % w < w := Nat.mod_lt _ hw
  rw [List.getElem?_take, if_pos hr, List.getElem?_drop]
  have hidx : i / w * w + i % w = i := by
    rw [Nat.mul_comm]
    exact Nat.div_add_mod i w
  rw [hidx, List.getElem?_eq_getElem hi]
  rfl

/-- C1: for every four-state integral value, each storage word is
immediately followed by a control word of identical width (both below
`2 ^ w`), for every bit position `i` the (value bit, control bit) pair
decodes as (0,0) to 0, (1,0) to 1, (0,1) to X, (1,1) to Z, and for every
two-state integral value no control word is present: the storage holds
exactly the value words. -/
theorem claim_c1_fourstate_pairing (w : Nat) (hw : 0 < w) (bits : List SvBit) :
    (packDim true w bits).length = 2 * numWords w bits.length
    ∧ (∀ j, j < numWords w bits.length →
        (packDim true w bits)[2 * j]?
            = some (bitsToNat (((bits.drop (j * w)).take w).map SvBit.bitVal))
          ∧ (packDim true w bits)[2 * j + 1]?
            = some (bitsToNat (((bits.drop (j * w)).take w).map SvBit.bitCtl))
          ∧ bitsToNat (((bits.drop (j * w)).take w).map SvBit.bitVal) < 2 ^ w
          ∧ bitsToNat (((bits.drop (j * w)).take w).map SvBit.bitCtl) < 2 ^ w)
    ∧ (∀ i, (hi : i < bits.length) →
        decodePair
            ((bitsToNat (((bits.drop (i / w * w)).take w).map SvBit.bitVal)).testBit (i % w))
            ((bitsToNat (((bits.drop (i / w * w)).take w).map SvBit.bitCtl)).testBit (i % w))
          = bits.get ⟨i, hi⟩)
    ∧ (packDim false w bits).length = numWords w bits.length
    ∧ (∀ j, j < numWords w bits.length →
        (packDim false w bits)[j]?
          = some (bitsToNat (((bits.drop (j * w)).take w).map SvBit.bitVal))) := by
  have hb : ∀ (f : SvBit → Bool) (j : Nat),
      bitsToNat (((bits.drop (j * w)).take w).map f) < 2 ^ w := by
    intro f j
    have h1 := bitsToNat_lt (((bits.drop (j * w)).take w).map f)
    have h2 : (((bits.drop (j * w)).take w).map f).length ≤ w := by
      simp [List.length_take]
    exact lt_of_lt_of_le h1 (Nat.pow_le_pow_right (by omega) h2)
  refine ⟨?_, ?_, ?_, ?_, ?_⟩
  · simp [packDim, packNFour_length]
  · intro j hj
    have h := packNFour_getElem w (numWords w bits.length) bits j hj
    exact ⟨by simpa [packDim] using h.1, by simpa [packDim] using h.2, hb _ j, hb _ j⟩
  · intro i hi
    rw [chunk_bit_eq w hw SvBit.bitVal bits i hi, chunk_bit_eq w hw SvBit.bitCtl bits i hi]
    exact decodePair_encode _
  · simp [packDim, packNTwo_length]
  · intro j hj
    simpa [packDim] using packNTwo_getElem w (numWords w bits.length) bits j hj

theorem claim_c1_witness :
    (packDim true 2 [SvBit.one, SvBit.x, SvBit.z]).length
      = 2 * numWords 2 [SvBit.one, SvBit.x, SvBit.z].length :=
  (claim_c1_fourstate_pairing 2 (by decide) [SvBit.one, SvBit.x, SvBit.z]).1

/-- C2: for every integral type (any combination of the fourstate, sized,
signed, packed and unpacked parameters) and every logical value respecting
the layout invariants, `unpack (pack v) = v`, and consequently `pack` and
`unpack` are mutual inverses between the valid values and the stored word
lists they produce. -/
theorem claim_c2_roundtrip (w : Nat) (t : SvTypeIntegral) (v : List (List SvBit))
    (hw : 0 < w) (hv : validValue t v = true) :
    unpackValue w t (packValue w t v) = v
    ∧ packValue w t (unpackValue w t (packValue w t v)) = packValue w t v := by
  have h := unpackValue_packValue w t v hw hv
  exact ⟨h, by rw [h]⟩

theorem claim_c2_witness :
    validValue exFour1bx2 [[SvBit.x], [SvBit.one]] = true
    ∧ unpackValue 32 exFour1bx2 (packValue 32 exFour1bx2 [[SvBit.x], [SvBit.one]])
        = [[SvBit.x], [SvBit.one]] :=
  ⟨by decide,
    (claim_c2_roundtrip 32 exFour1bx2 [[SvBit.x], [SvBit.one]] (by decide) (by decide)).1⟩

/-- C3: the alignment examples of the source: a two-state packed-1-bit
unpacked-by-5 vector holding 11000 (index 0 rightmost, stored first) packs
to the word sequence 0,0,0,1,1, and the four-state one holding 0,1,X,Z,0
packs to the (value, control) pairs 0,0 1,1 0,1 1,0 0,0, index-0 element
first.  Word width instantiated at 32 as in the source examples. -/
theorem claim_c3_alignment :
    packValue 32 exTwo1bx5 [[SvBit.zero], [SvBit.zero], [SvBit.zero], [SvBit.one], [SvBit.one]]
        = [0, 0, 0, 1, 1]
    ∧ packValue 32 exFour1bx5 [[SvBit.zero], [SvBit.z], [SvBit.x], [SvBit.one], [SvBit.zero]]
        = [0, 0, 1, 1, 0, 1, 1, 0, 0, 0] := by
  constructor <;> decide

theorem sum_map_length {cw : Nat} :
    ∀ v : List (List SvBit), (∀ c ∈ v, c.length = cw) →
      (v.map List.length).sum = v.length * cw := by
  intro v
  induction v with
  | nil => intro _; simp
  | cons c rest ih =>
    intro h
    have hc := h c (List.mem_cons_self c rest)
    simp only [List.map_cons, List.sum_cons, List.length_cons, hc,
      ih fun d hd => h d (List.mem_cons_of_mem _ hd)]
    ring

theorem prodWidths_split (l : List (Nat × Nat)) :
    prodWidths l = prodWidths l.dropLast * dimWidth (l.getLastD (0, 0)) := by
  induction l with
  | nil => simp [prodWidths, dimWidth]
  | cons d rest ih =>
    cases rest with
    | nil => simp [prodWidths, List.getLastD]
    | cons e rest2 =>
      simp only [prodWidths, List.map_cons, List.prod_cons, List.getLastD_cons,
        List.dropLast_cons₂] at ih ⊢
      rw [ih]
      ring

/-- C4: for every integral type with `sized = true`, `$bits` equals the
product of all packed dimension widths times the product of all unpacked
dimension widths, which also counts exactly the logical bits of any value
respecting the layout (control words excluded); with `sized = false`, both
the `$bits` and the `layout` requests fail with `UnsizedWidth`. -/
theorem claim_c4_bits_width (t : SvTypeIntegral) (v : List (List SvBit)) :
    (t.sized = true → validValue t v = true →
      svBits t = .ok (prodWidths (packedDims t) * prodWidths (unpackedDims t))
        ∧ svBits t = .ok ((v.map List.length).sum))
    ∧ (t.sized = false →
        svBits t = .error .UnsizedWidth
          ∧ ∀ w, layout w t.fourstate t.sized t.packed t.unpacked
              = .error .UnsizedWidth) := by
  constructor
  · intro hs hv
    simp only [validValue, Bool.and_eq_true, beq_iff_eq, List.all_eq_true] at hv
    obtain ⟨hn, hall⟩ := hv
    have hsum : (v.map List.length).sum = v.length * chunkWidth t := by
      refine sum_map_length v fun c hc => ?_
      have := hall c hc
      simp only [Bool.and_eq_true, beq_iff_eq] at this
      exact this.1
    have hbits : v.length * chunkWidth t
        = prodWidths (packedDims t) * prodWidths (unpackedDims t) := by
      rw [hn, numChunks, elemCount, chunksPerElem, chunkWidth,
        prodWidths_split (packedDims t)]
      ring
    constructor
    · simp [svBits, hs]
    · rw [hsum, hbits]
      simp [svBits, hs]
  · intro hs
    constructor
    · simp [svBits, hs]
    · intro w
      simp [layout, hs]

theorem claim_c4_witness :
    svBits exTwo1bx5
      = Except.ok
        (([[SvBit.one], [SvBit.one], [SvBit.zero], [SvBit.zero], [SvBit.zero]].map
          List.length).sum) :=
  ((claim_c4_bits_width exTwo1bx5
      [[SvBit.one], [SvBit.one], [SvBit.zero], [SvBit.zero], [SvBit.zero]]).1
    rfl (by decide)).2

/-- C5 as written fails: the spec also requires two integral entries
differing only by identifier to classify as Equivalent rather than
Matching, so flag-and-dimension identity alone cannot be equivalent to a
Matching result.  Two anonymous-vs-named entries with identical flags and
dimensions classify Equivalent, refuting the stated iff. -/
theorem claim_c5_counterexample :
    ¬ (∀ (a b : SvType) (ia ib : SvTypeIntegral),
        a = SvType.Integral ia → b = SvType.Integral ib →
        (classify a b = SvTypesCompatibility.Matching ↔
          (ia.fourstate = ib.fourstate ∧ ia.sized = ib.sized ∧ ia.signed = ib.signed
            ∧ ia.packed = ib.packed ∧ ia.unpacked = ib.unpacked))) := by
  intro h
  have h2 := (h _ _ ⟨none, none, false, true, false, none, none, none⟩
      ⟨none, some "a", false, true, false, none, none, none⟩ rfl rfl).mpr
      ⟨rfl, rfl, rfl, rfl, rfl⟩
  exact absurd h2 (by decide)

/-- C5 (amended): `classify` returns Matching for two entries iff both are
integral with identical fourstate, sized and signed flags, identical
packed and unpacked dimension lists (order included) and identical
identifiers; it returns Equivalent iff both are integral, structurally
identical, and the identifiers differ; and for two entries of different
tagged variants it never returns Matching or Equivalent. -/
theorem claim_c5_classify (a b : SvType) :
    (classify a b = SvTypesCompatibility.Matching ↔
      ∃ ia ib, a = SvType.Integral ia ∧ b = SvType.Integral ib
        ∧ integralStructEq ia ib = true ∧ ia.identifier = ib.identifier)
    ∧ (classify a b = SvTypesCompatibility.Equivalent ↔
      ∃ ia ib, a = SvType.Integral ia ∧ b = SvType.Integral ib
        ∧ integralStructEq ia ib = true ∧ ia.identifier ≠ ib.identifier)
    ∧ (svTypeTag a ≠ svTypeTag b →
        classify a b ≠ SvTypesCompatibility.Matching
          ∧ classify a b ≠ SvTypesCompatibility.Equivalent) := by
  rcases a with ia | ra | va | ca | cla | sa | ea | ta | na
    <;> rcases b with ib | rb | vb | cb | clb | sb | eb | tb | nb
    <;> simp [classify]
  case Integral.Integral =>
    by_cases h1 : integralStructEq ia ib = true
    · by_cases h2 : ia.identifier = ib.identifier
      · simp [h1, h2, svTypeTag]
      · simp [h1, h2, svTypeTag]
    · simp [h1, svTypeTag]

theorem claim_c5_witness :
    classify (SvType.Void { origin := none }) (SvType.Chandle { origin := none, value := 0 })
        ≠ SvTypesCompatibility.Matching
    ∧ classify (SvType.Void { origin := none }) (SvType.Chandle { origin := none, value := 0 })
        ≠ SvTypesCompatibility.Equivalent :=
  (claim_c5_classify _ _).2.2 (by decide)

/-- C6: on a two-state integral value, `write_bit` of X or Z fails with
`TwoStateOverflow` and leaves the descriptor unchanged (no silent coercion
of X/Z to 0/1), while any successful `read_bit` returns 0 or 1 only. -/
theorem claim_c6_twostate_access (w : Nat) (t : SvTypeIntegral) (pIdx uIdx : Nat) (b : SvBit) :
    (t.fourstate = false → (b = SvBit.x ∨ b = SvBit.z) →
      writeBit w t pIdx uIdx b = .error .TwoStateOverflow
        ∧ writeBitApplied w t pIdx uIdx b = t)
    ∧ (t.fourstate = false → ∀ r, readBit w t pIdx uIdx = .ok r →
        r = SvBit.zero ∨ r = SvBit.one) := by
  constructor
  · intro hfs hb
    have hwrite : writeBit w t pIdx uIdx b = .error .TwoStateOverflow := by
      unfold writeBit
      rw [if_pos ⟨hfs, hb⟩]
    refine ⟨hwrite, ?_⟩
    unfold writeBitApplied
    rw [hwrite]
  · intro hfs r h
    cases hval : t.value with
    | none => simp [readBit, hval] at h
    | some ws =>
      simp only [readBit, hval] at h
      by_cases hidx : uIdx < elemCount t ∧ pIdx < chunksPerElem t * chunkWidth t
      · rw [if_pos hidx] at h
        simp only [hfs, Bool.false_eq_true, if_false, Except.ok.injEq] at h
        rw [← h]
        split
        · exact Or.inr rfl
        · exact Or.inl rfl
      · rw [if_neg hidx] at h
        simp at h

theorem claim_c6_witness :
    writeBit 32 { exTwo1bx5 with value := some [0, 0, 0, 0, 0] } 0 0 SvBit.x
        = .error .TwoStateOverflow
    ∧ writeBitApplied 32 { exTwo1bx5 with value := some [0, 0, 0, 0, 0] } 0 0 SvBit.x
        = { exTwo1bx5 with value := some [0, 0, 0, 0, 0] } :=
  (claim_c6_twostate_access 32 { exTwo1bx5 with value := some [0, 0, 0, 0, 0] }
      0 0 SvBit.x).1 rfl (Or.inl rfl)

/-- C7: every dimension pair's computed width is the absolute difference
of its bounds plus one, hence always at least 1, and the layout request
fails with `MalformedDimension` exactly when some dimension has width zero
or negative — which, widths being at least 1, never happens. -/
theorem claim_c7_malformed_dimension :
    (∀ d : Nat × Nat,
      (dimWidth d : Int) = ((d.1 : Int) - (d.2 : Int)).natAbs + 1 ∧ 1 ≤ dimWidth d)
    ∧ ∀ (w : Nat) (fs sized : Bool) (packed unpacked : Option (List (Nat × Nat))),
        layout w fs sized packed unpacked = Except.error SvError.MalformedDimension ↔
          ∃ d ∈ packed.getD [(0, 0)] ++ unpacked.getD [(0, 0)], dimWidth d = 0 := by
  have hpos : ∀ d : Nat × Nat, 1 ≤ dimWidth d := by
    intro d
    unfold dimWidth
    omega
  constructor
  · intro d
    refine ⟨?_, hpos d⟩
    unfold dimWidth
    rcases le_total d.1 d.2 with h | h
    · rw [max_eq_right h, min_eq_left h]
      omega
    · rw [max_eq_left h, min_eq_right h]
      omega
  · intro w fs sized packed unpacked
    have hno : ¬ ∃ d ∈ packed.getD [(0, 0)] ++ unpacked.getD [(0, 0)], dimWidth d = 0 := by
      rintro ⟨d, _, h0⟩
      have := hpos d
      omega
    have hany : ((packed.getD [(0, 0)] ++ unpacked.getD [(0, 0)]).any
        fun d => dimWidth d == 0) = false := by
      rw [List.any_eq_false]
      intro d hd
      have := hpos d
      simp only [beq_iff_eq]
      omega
    constructor
    · intro h
      cases hs : sized with
      | false => simp [layout, hs] at h
      | true =>
        unfold layout at h
        rw [if_neg (by simp [hs])] at h
        simp only [hany, Bool.false_eq_true, if_false] at h
        simp at h
    · intro hex
      exact absurd hex hno

/-- C8 as written fails: the `Void` variant's descriptor (`SvTypeVoid`)
declares only an `origin` field, with no `identifier`; `Chandle` and
`String` likewise lack one. -/
theorem claim_c8_counterexample :
    ¬ ∀ t : SvType, (svTypeIdentifierSlot t).isSome = true
        ∧ (svTypeOriginSlot t).isSome = true := by
  intro h
  have := (h (SvType.Void { origin := none })).1
  simp [svTypeIdentifierSlot] at this

/-- C8 (amended): every variant of the type catalog carries an optional
`SourceOrigin` field, but only the Integral, Real, Class, Event, Typedef
and Enum variants carry an optional identifier field — the Void, Chandle
and String variants do not. -/
theorem claim_c8_variant_fields (t : SvType) :
    (svTypeOriginSlot t).isSome = true
    ∧ ((svTypeIdentifierSlot t).isSome = true ↔
        (svTypeTag t ≠ SvTypeTag.Void ∧ svTypeTag t ≠ SvTypeTag.Chandle
          ∧ svTypeTag t ≠ SvTypeTag.String)) := by
  cases t <;> simp [svTypeOriginSlot, svTypeIdentifierSlot, svTypeTag]

/-- C9 as written fails: the chandle descriptor stores its value in a
mandatory (non-optional) `usize` field, so a declared-but-uninitialized
chandle is not distinguishable from a concrete value; void, class and
event likewise have no optional value slot. -/
theorem claim_c9_counterexample :
    ¬ ∀ t : SvType,
        (svTypeTag t = SvTypeTag.Real ∨ svTypeTag t = SvTypeTag.Void
          ∨ svTypeTag t = SvTypeTag.Chandle ∨ svTypeTag t = SvTypeTag.String
          ∨ svTypeTag t = SvTypeTag.Class ∨ svTypeTag t = SvTypeTag.Event) →
        ∃ ov, svScalarValueShape t = some (SvValueSlot.optionalSlot ov) := by
  intro h
  obtain ⟨ov, hov⟩ := h (SvType.Chandle { origin := none, value := 0 })
    (Or.inr (Or.inr (Or.inl rfl)))
  simp [svScalarValueShape] at hov

/-- C9 (amended): among the scalar descriptors, only `real` and `string`
model their value as an optional slot (absent meaning declared but
uninitialized); `void` has no value slot at all, while `chandle`, `class`
and `event` store a mandatory, always-present value. -/
theorem claim_c9_scalar_value_slots (t : SvType) :
    ((svTypeTag t = SvTypeTag.Real ∨ svTypeTag t = SvTypeTag.String) →
      ∃ ov, svScalarValueShape t = some (SvValueSlot.optionalSlot ov))
    ∧ (svTypeTag t = SvTypeTag.Void → svScalarValueShape t = some SvValueSlot.noSlot)
    ∧ ((svTypeTag t = SvTypeTag.Chandle ∨ svTypeTag t = SvTypeTag.Class
          ∨ svTypeTag t = SvTypeTag.Event) →
      ∃ mv, svScalarValueShape t = some (SvValueSlot.mandatorySlot mv)) := by
  cases t <;> simp [svTypeTag, svScalarValueShape]

theorem claim_c9_witness :
    ∃ mv, svScalarValueShape (SvType.Chandle { origin := none, value := 5 })
        = some (SvValueSlot.mandatorySlot mv) :=
  (claim_c9_scalar_value_slots (SvType.Chandle { origin := none, value := 5 })).2.2
    (Or.inl rfl)

/-- C10: an `Enum`-tagged catalog entry carries a `SvTypeTypedef` payload
(the source declares `Enum(Box<SvTypeTypedef>)`), not the enumeration
descriptor `SvTypeEnum`, so an enumeration's base type and ordered member
list are not reachable through such an entry. -/
theorem claim_c10_enum_payload (t : SvType) (h : svTypeTag t = SvTypeTag.Enum) :
    ∃ td : SvTypeTypedef, t = SvType.Enum td ∧ svTypeEnumEntry t = some td := by
  cases t <;> simp_all [svTypeTag, svTypeEnumEntry]

theorem claim_c10_witness :
    ∃ td : SvTypeTypedef,
      SvType.Enum (SvTypeTypedef.mk none none (SvType.Void { origin := none }))
          = SvType.Enum td
        ∧ svTypeEnumEntry
            (SvType.Enum (SvTypeTypedef.mk none none (SvType.Void { origin := none })))
          = some td :=
  claim_c10_enum_payload
    (SvType.Enum (SvTypeTypedef.mk none none (SvType.Void { origin := none }))) rfl
